import Mathlib

/-!
A shallow embedding of the cat-loggr formatting-and-dispatch pipeline
(src/src/Loggr.ts, TypeScript implementation), together with theorems
checking the natural-language specification against it.

Modelling conventions:
- JavaScript exceptions thrown by a method on a mutable instance are
  rendered as `Except (JSError × LoggrState) LoggrState`: the error value
  carries the instance state as it stands at the moment of the throw
  (JS does not roll back mutations made before a throw).
- Side effects on streams and invocations of user hooks are recorded in an
  observation trace (`Obs`); a stream write is one `Obs.write` event.
- External collaborators (chalk, util.format, util.inspect, moment, the
  stack-trace source) are capabilities: chalk styles are concrete
  open/close ANSI wrappers, the rest are fields of an `Externals` record that
  theorems quantify over.
- JS objects used as string-keyed maps (`_levelMap`, the per-instance
  bound level methods) are association lists where insertion prepends and
  lookup takes the first (most recent) binding, matching property
  assignment/lookup semantics.
-/

/-- The error taxonomy actually used by the source: `TypeError`
(InvalidArgument in the spec) and plain `Error` (UnknownLevel). -/
inductive JSError where
  | typeError (msg : String)
  | error (msg : String)
deriving DecidableEq

/-- A primitive JS value usable as a shard id (string | number). -/
inductive JSPrim where
  | str (s : String)
  | num (n : Int)
deriving DecidableEq

/-- JS truthiness for string | number: empty string and 0 are falsy. -/
def JSPrim.truthy : JSPrim → Bool
  | .str s => s ≠ ""
  | .num n => n ≠ 0

/-- JS `.toString()` on a string | number. -/
def JSPrim.toStr : JSPrim → String
  | .str s => s
  | .num n => toString n

/-- A dynamically typed argument value passed to a level function.
`obj id` stands for a non-Error object (inspected by the external
capability); `errObj stack` is an Error instance carrying its stack. -/
inductive JSVal where
  | str (s : String)
  | num (n : Int)
  | bool (b : Bool)
  | undef
  | nullv
  | errObj (stack : String)
  | obj (id : Nat)
deriving DecidableEq

/-- A chalk style: an opening and a closing ANSI escape sequence.
Source: the chalk library, consumed as a text-styling capability. -/
structure Style where
  opens : String
  closes : String
deriving DecidableEq

/-- Applying a chalk style wraps the text in its escape sequences. -/
def Style.apply (c : Style) (s : String) : String := c.opens ++ s ++ c.closes

def chalk.redBgBlack : Style := ⟨"\x1b[31m\x1b[40m", "\x1b[49m\x1b[39m"⟩
def chalk.blackBgRed : Style := ⟨"\x1b[30m\x1b[41m", "\x1b[49m\x1b[39m"⟩
def chalk.blackBgYellow : Style := ⟨"\x1b[30m\x1b[43m", "\x1b[49m\x1b[39m"⟩
def chalk.greenBgBlack : Style := ⟨"\x1b[32m\x1b[40m", "\x1b[49m\x1b[39m"⟩
def chalk.blackBgBlue : Style := ⟨"\x1b[30m\x1b[44m", "\x1b[49m\x1b[39m"⟩
def chalk.blackBgGreen : Style := ⟨"\x1b[30m\x1b[42m", "\x1b[49m\x1b[39m"⟩
def chalk.blackBgCyan : Style := ⟨"\x1b[30m\x1b[46m", "\x1b[49m\x1b[39m"⟩
def chalk.magentaBgBlack : Style := ⟨"\x1b[35m\x1b[40m", "\x1b[49m\x1b[39m"⟩
def chalk.blackBgWhite : Style := ⟨"\x1b[30m\x1b[47m", "\x1b[49m\x1b[39m"⟩
def chalk.blackBoldBgYellow : Style := ⟨"\x1b[30m\x1b[1m\x1b[43m", "\x1b[49m\x1b[22m\x1b[39m"⟩
def chalk.magenta : Style := ⟨"\x1b[35m", "\x1b[39m"⟩
def chalk.cyan : Style := ⟨"\x1b[36m", "\x1b[39m"⟩
def chalk.red : Style := ⟨"\x1b[31m", "\x1b[39m"⟩

/-- Source `class LogMeta`: all fields concrete after construction
(destructuring defaults depth 1, color true, trace false, shardId '',
quote false). -/
structure LogMeta where
  depth : Int := 1
  color : Bool := true
  trace : Bool := false
  shardId : JSPrim := .str ""
  quote : Bool := false
deriving DecidableEq

/-- A partial meta options object as supplied by callers: a field is
`none` when absent (or `undefined`), triggering the default. -/
structure MetaOpts where
  depth : Option Int := none
  color : Option Bool := none
  trace : Option Bool := none
  shardId : Option JSPrim := none
  quote : Option Bool := none
deriving DecidableEq

/-- Source `new LogMeta(meta)`: destructuring with the built-in defaults. -/
def LogMeta.ofOpts (o : MetaOpts) : LogMeta :=
  { depth := o.depth.getD 1
    color := o.color.getD true
    trace := o.trace.getD false
    shardId := o.shardId.getD (.str "")
    quote := o.quote.getD false }

/-- Source `Object.assign({}, defaultMeta, meta)`: every field of the full
default record, overridden by the fields present in `o`. -/
def LogMeta.assign (d : LogMeta) (o : MetaOpts) : LogMeta :=
  { depth := o.depth.getD d.depth
    color := o.color.getD d.color
    trace := o.trace.getD d.trace
    shardId := o.shardId.getD d.shardId
    quote := o.quote.getD d.quote }

/-- The `_meta` (PendingMeta) slot: either the plain `{}` it is reset to
(all property reads yield `undefined`, which is falsy) or a full merged
object produced by `meta()`. -/
inductive Pending where
  | empty
  | merged (m : LogMeta)
deriving DecidableEq

/-- Truthiness of `this._meta.quote`. -/
def Pending.quoteFlag : Pending → Bool
  | .empty => false
  | .merged m => m.quote

/-- Truthiness of `this._meta.trace`. -/
def Pending.traceFlag : Pending → Bool
  | .empty => false
  | .merged m => m.trace

/-- Source `this._meta.shardId ? this._meta.shardId.toString() : _` — the shard
override used by `_write` when the pending shardId is truthy. -/
def Pending.shardOverride : Pending → Option String
  | .empty => none
  | .merged m => if m.shardId.truthy then some m.shardId.toStr else none

/-- The result an arg-hook may return: the source accepts an array
(splatted element-by-element) or one scalar fragment. -/
inductive HookRes where
  | arr (xs : List String)
  | scalar (s : String)

/-- An arg-hook callback: receives the argument and the raw timestamp
and returns a result or null/undefined (`none`) to continue. -/
abbrev ArgHook := JSVal → Nat → Option HookRes

/-- The params object `_write` passes to each post-hook. -/
structure PostParams where
  text : String
  date : Nat
  timestamp : String
  shard : Option String
  level : String
  error : Bool

/-- A post-hook callback: may replace the assembled text or return
null/undefined (`none`) to continue. -/
abbrev PostHook := PostParams → Option String

/-- Source `class LogHooks`: the two append-only registration lists. -/
structure LogHooks where
  arg : List ArgHook := []
  post : List PostHook := []

/-- A level definition as supplied to `setLevels` (source `class
LogLevel` before its `position` field is assigned by registration). -/
structure LevelSpec where
  name : String
  color : Style
  err : Bool := false
  trace : Bool := false
  aliases : List String := []
deriving DecidableEq

/-- A registered level: a `LevelSpec` whose `position` has been assigned
by `setLevels` (the index in the registered sequence). -/
structure LogLevel where
  name : String
  color : Style
  err : Bool
  trace : Bool
  aliases : List String
  position : Nat
deriving DecidableEq

/-- Source `l.position = this._levels.indexOf(l)` followed by registration:
with the distinct objects of a levels array, `indexOf` is the element's
own index, passed here explicitly. -/
def registerLevel (l : LevelSpec) (i : Nat) : LogLevel :=
  { name := l.name, color := l.color, err := l.err, trace := l.trace
    aliases := l.aliases, position := i }

/-- The `.map` pass of `setLevels`, which assigns each level its index
as `position`. -/
def positionLevels : List LevelSpec → Nat → List LogLevel
  | [], _ => []
  | l :: rest, i => registerLevel l i :: positionLevels rest (i + 1)

/-- JS object property assignment on a string-keyed map: prepend; lookup
finds the most recent binding, so a later assignment wins. -/
def jsSet (m : List (String × LogLevel)) (k : String) (v : LogLevel) :
    List (String × LogLevel) :=
  (k, v) :: m

/-- JS object property lookup (first, i.e. most recent, binding). -/
def jsGet (k : String) : List (String × LogLevel) → Option LogLevel
  | [] => none
  | (k2, v) :: rest => if k2 = k then some v else jsGet k rest

/-- The whole per-instance state of a `CatLoggr` (spec: LoggerState).
`methods` holds the callable shortcuts bound per level name and alias
(`this[l.name] = func`); the output stream handles are external and are
identified by the error flag of each recorded write. -/
structure LoggrState where
  shard : Option JSPrim
  shardLength : Option Nat
  levelName : String
  levels : List LogLevel
  levelMap : List (String × LogLevel)
  methods : List (String × LogLevel)
  defaultMeta : LogMeta
  meta : Pending
  maxLength : Nat
  hooks : LogHooks

/-- One line written to a stream, kept structured: `line` below is the
flattened string the source writes. -/
structure WriteEvent where
  shardText : String
  timestampFmt : String
  levelStr : String
  body : String
  toStderr : Bool
deriving DecidableEq

/-- Source `stream.write(shardText + timestamp.formatted + levelStr + space + text + newline)`. -/
def WriteEvent.line (e : WriteEvent) : String :=
  e.shardText ++ e.timestampFmt ++ e.levelStr ++ " " ++ e.body ++ "\n"

/-- Observable actions of one call: invoking an arg-hook, invoking a
post-hook, or writing a line to a stream. -/
inductive Obs where
  | argHook (arg : JSVal)
  | postHook (text : String)
  | write (e : WriteEvent)

/-- The stream writes contained in a trace. -/
def writeEvents (t : List Obs) : List WriteEvent :=
  t.filterMap fun o => match o with | .write e => some e | _ => none

/-- The arg-hook invocations contained in a trace. -/
def argHookEvents (t : List Obs) : List Obs :=
  t.filter fun o => match o with | .argHook _ => true | _ => false

/-- The post-hook invocations contained in a trace. -/
def postHookEvents (t : List Obs) : List Obs :=
  t.filter fun o => match o with | .postHook _ => true | _ => false

/-- What a level-function call returns: the logger itself (`this`),
`undefined` (the threshold-filtered early return), or a thrown error. -/
inductive Ret where
  | logger
  | undef
  | thrown (e : JSError)

/-- Result of one level-function call: the state after the call, the
returned value, and the observation trace. -/
structure CallResult where
  state : LoggrState
  ret : Ret
  trace : List Obs

/-- The value produced by the `moment()` time source. -/
structure Timestamp where
  raw : Nat
  formattedRaw : String

/-- The object the `_timestamp` getter builds. -/
structure TimestampObj where
  raw : Nat
  formatted : String
  formattedRaw : String

/-- The external capabilities: time source, `util.format`,
`util.inspect` (receives the pending meta as its options object), and
the stack text produced by `new Error().stack` minus its first line. -/
structure Externals where
  now : Timestamp
  utilFormat : String → List JSVal → String
  inspect : JSVal → Pending → String
  stackText : String

/-- The `_timestamp` getter: raw date, raw formatted text, and the
formatted text wrapped in `chalk.black.bgWhite` with a space on each
side. -/
def CatLoggr.timestampOf (ext : Externals) : TimestampObj :=
  { raw := ext.now.raw
    formatted := chalk.blackBgWhite.apply (" " ++ ext.now.formattedRaw ++ " ")
    formattedRaw := ext.now.formattedRaw }

/-- Source `_centrePad(text, length)`. The length is `Option Nat` because the
source can pass the undefined `_shardLength`; `text.length < undefined`
is false in JS, so `none` returns the text unchanged. -/
def CatLoggr.centrePad (text : String) (len : Option Nat) : String :=
  match len with
  | none => text
  | some length =>
    if text.length < length then
      String.mk (List.replicate ((length - text.length) / 2) ' ') ++ text
        ++ String.mk (List.replicate ((length - text.length + 1) / 2) ' ')
    else text

/-- The input to `setLevels`: either a proper array of level definitions
or any non-array value (rejected by the `Array.isArray` guard). -/
inductive LevelsInput where
  | array (ls : List LevelSpec)
  | nonArray (v : JSVal)

/-- The `foldl` pass building `_levelMap` from the positioned levels
(`this._levelMap[l.name] = l` in registration order). -/
def buildLevelMap (ls : List LogLevel) : List (String × LogLevel) :=
  ls.foldl (fun m l => jsSet m l.name l) []

/-- The per-level step binding `this[l.name] = func` and
`this[alias] = func` for every alias, in order. -/
def bindMethods (ls : List LogLevel) (init : List (String × LogLevel)) :
    List (String × LogLevel) :=
  ls.foldl (fun m l => l.aliases.foldl (fun m2 a => jsSet m2 a l) (jsSet m l.name l)) init

/-- Source `max = l.name.length > max ? l.name.length : max` folded over the
levels, starting from 0. -/
def maxNameLength (ls : List LogLevel) : Nat :=
  ls.foldl (fun mx l => if l.name.length > mx then l.name.length else mx) 0

/-- Source `CatLoggr.setLevels`. Non-arrays are rejected up front (previous
state intact). Otherwise the map is cleared and rebuilt, positions are
assigned, method shortcuts are bound, and if the previous threshold name
is no longer present it falls back to the last level — which, for an
empty array, reads `.name` of `undefined` and throws with the registry
already cleared. `_maxLength` is only assigned after that point. -/
def CatLoggr.setLevels (st : LoggrState) (input : LevelsInput) :
    Except (JSError × LoggrState) LoggrState :=
  match input with
  | .nonArray _ => .error (.typeError "levels must be an array.", st)
  | .array levels =>
    let positioned := positionLevels levels 0
    let st1 := { st with
      levels := positioned
      levelMap := buildLevelMap positioned
      methods := bindMethods positioned st.methods }
    let check : Except (JSError × LoggrState) LoggrState :=
      if (jsGet st1.levelName st1.levelMap).isSome then .ok st1
      else
        match positioned.getLast? with
        | some l => .ok { st1 with levelName := l.name }
        | none =>
          .error (.typeError "Cannot read properties of undefined (reading name)", st1)
    match check with
    | .error e => .error e
    | .ok st2 => .ok { st2 with maxLength := maxNameLength positioned + 2 }

/-- Source `CatLoggr.setLevel`: TypeError for a non-string, Error for a string
that is not a key of `_levelMap` (which holds primary names only),
otherwise sets the threshold name. -/
def CatLoggr.setLevel (st : LoggrState) (level : JSVal) :
    Except (JSError × LoggrState) LoggrState :=
  match level with
  | .str s =>
    match jsGet s st.levelMap with
    | some _ => .ok { st with levelName := s }
    | none => .error (.error ("the level " ++ s ++ " does not exist"), st)
  | _ => .error (.typeError "level must be a string", st)

/-- The input to `setDefaultMeta`: an object or any non-object value
(rejected by the `typeof` guard). -/
inductive MetaInput where
  | obj (o : MetaOpts)
  | nonObject (v : JSVal)

/-- Source `CatLoggr.setDefaultMeta`: `this._defaultMeta = new LogMeta(meta)`. -/
def CatLoggr.setDefaultMeta (st : LoggrState) (m : MetaInput) :
    Except (JSError × LoggrState) LoggrState :=
  match m with
  | .nonObject _ => .error (.typeError "meta must be an object", st)
  | .obj o => .ok { st with defaultMeta := LogMeta.ofOpts o }

/-- Source `CatLoggr.meta`: builds a fresh object, merges the stored defaults
then the call-site options into it, and installs it as the pending meta
(`let temp = \x7b\x7d; Object.assign(temp, this._defaultMeta, meta); this._meta = temp`). -/
def CatLoggr.meta (st : LoggrState) (m : MetaOpts := {}) : LoggrState :=
  { st with meta := .merged (LogMeta.assign st.defaultMeta m) }

/-- Source `CatLoggr.addArgHook`: append-only registration. -/
def CatLoggr.addArgHook (st : LoggrState) (f : ArgHook) : LoggrState :=
  { st with hooks := { st.hooks with arg := st.hooks.arg ++ [f] } }

/-- Source `CatLoggr.addPostHook`: append-only registration. -/
def CatLoggr.addPostHook (st : LoggrState) (f : PostHook) : LoggrState :=
  { st with hooks := { st.hooks with post := st.hooks.post ++ [f] } }

/-- The inner arg-hook loop of `_format` for one argument: hooks are
tried in registration order; null/undefined continues, the first result
ends the loop. Returns the winning result (if any) and the trace of
hook invocations actually made. -/
def runArgHooks : List ArgHook → JSVal → Nat → Option HookRes × List Obs
  | [], _, _ => (none, [])
  | h :: rest, arg, d =>
    match h arg d with
    | none =>
      let r := runArgHooks rest arg d
      (r.1, .argHook arg :: r.2)
    | some res => (some res, [.argHook arg])

/-- The built-in type classification of one argument (the if/else chain
of `_format` after the hooks declined): strings are magenta (quoted when
the pending meta asks), numbers cyan, Errors a newline plus their red
stack, other objects (including null) a newline plus the inspection
capability's output, and any other primitive its default text. -/
def classifyArg (ext : Externals) (pending : Pending) (arg : JSVal) : List String :=
  match arg with
  | .str s => [chalk.magenta.apply (if pending.quoteFlag then "\x27" ++ s ++ "\x27" else s)]
  | .num n => [chalk.cyan.apply (toString n)]
  | .errObj stack => ["\n", chalk.red.apply stack]
  | .nullv => ["\n", ext.inspect .nullv pending]
  | .obj i => ["\n", ext.inspect (.obj i) pending]
  | .bool b => [if b then "true" else "false"]
  | .undef => ["undefined"]

/-- Processing of one argument: the arg-hook chain first; an array
result is splatted, a scalar result is one fragment, and only if every
hook declined does the argument fall through to classification. -/
def formatArg (ext : Externals) (pending : Pending) (hooks : List ArgHook)
    (arg : JSVal) (d : Nat) : List String × List Obs :=
  let r := runArgHooks hooks arg d
  (match r.1 with
   | some (.arr xs) => xs
   | some (.scalar s) => [s]
   | none => classifyArg ext pending arg, r.2)

/-- The `for (const arg of args)` loop of `_format`, accumulating
fragments and the hook-invocation trace in order. -/
def processArgs (ext : Externals) (pending : Pending) (hooks : List ArgHook)
    (d : Nat) : List JSVal → List String × List Obs
  | [] => ([], [])
  | arg :: rest =>
    let r := formatArg ext pending hooks arg d
    let rs := processArgs ext pending hooks d rest
    (r.1 ++ rs.1, r.2 ++ rs.2)

/-- The number of matches of the regex over percent-escapes
(`%s %d %i %f %j %o %O`, scanned left to right, non-overlapping). -/
def jsFormatCount : List Char → Nat
  | '%' :: c :: rest =>
    if c = 's' ∨ c = 'd' ∨ c = 'i' ∨ c = 'f' ∨ c = 'j' ∨ c = 'o' ∨ c = 'O'
    then jsFormatCount rest + 1
    else jsFormatCount (c :: rest)
  | _ :: rest => jsFormatCount rest
  | [] => 0

/-- The printf step of `_format`: when the first argument is a string
containing format escapes, as many following arguments are consumed and
substituted via the `util.format` capability; the rest pass through. -/
def substitutePrintf (ext : Externals) (args : List JSVal) : List JSVal :=
  match args with
  | .str s :: rest =>
    let k := jsFormatCount s.data
    if k = 0 then args
    else .str (ext.utilFormat s (rest.take k)) :: rest.drop k
  | _ => args

/-- The params object `_write` builds for every post-hook invocation. -/
def CatLoggr.postParams (st : LoggrState) (level : LogLevel) (text : String)
    (timestamp : TimestampObj) : PostParams :=
  { text := text
    date := timestamp.raw
    timestamp := timestamp.formattedRaw
    shard := match st.shard with
             | some sh => if sh.truthy then some sh.toStr else none
             | none => none
    level := level.name
    error := level.err }

/-- The post-hook loop of `_write`: hooks run in registration order on
the same params; null/undefined continues, the first result replaces the
text and breaks. Returns the replacement (if any) and the trace of
post-hook invocations made. -/
def runPostHooks : List PostHook → PostParams → Option String × List Obs
  | [], _ => (none, [])
  | h :: rest, p =>
    match h p with
    | none =>
      let r := runPostHooks rest p
      (r.1, .postHook p.text :: r.2)
    | some s => (some s, [.postHook p.text])

/-- Source `CatLoggr._write`: rebuilds the timestamp, renders the level badge
(centre-padded to `_maxLength`) and the shard tag (pending shard
override first, centre-padded to `_shardLength`), runs the post-hooks,
performs exactly one stream write, and resets the pending meta to the
empty object. -/
def CatLoggr.write (ext : Externals) (st : LoggrState) (level : LogLevel)
    (text : String) (err : Bool) : LoggrState × List Obs :=
  let timestamp := CatLoggr.timestampOf ext
  let levelStr := level.color.apply (CatLoggr.centrePad level.name (some st.maxLength))
  let shardText :=
    match st.shard with
    | some sh =>
      if sh.truthy then
        chalk.blackBoldBgYellow.apply
          (CatLoggr.centrePad ((st.meta.shardOverride).getD sh.toStr) st.shardLength)
      else ""
    | none => ""
  let pp := CatLoggr.postParams st level text timestamp
  let ph := runPostHooks st.hooks.post pp
  let text2 := match ph.1 with | some s => s | none => text
  let ev : WriteEvent :=
    { shardText := shardText, timestampFmt := timestamp.formatted
      levelStr := levelStr, body := text2, toStderr := err }
  ({ st with meta := .empty }, ph.2 ++ [.write ev])

/-- Source `CatLoggr._format`: computes the timestamp, suppresses the call
entirely when the level sits below the threshold (returning undefined),
otherwise substitutes printf escapes, processes each argument through
hooks or classification, joins with single spaces, appends the stack
for trace-flagged calls, wraps error-destined output in red, writes via
`_write` and finally calls `.meta()` (resetting the pending meta to a
fresh copy of the defaults). -/
def CatLoggr.format (ext : Externals) (st : LoggrState) (level : LogLevel)
    (args : List JSVal) : CallResult :=
  let timestamp := CatLoggr.timestampOf ext
  match jsGet st.levelName st.levelMap with
  | none =>
    { state := st
      ret := .thrown (.typeError "Cannot read properties of undefined (reading position)")
      trace := [] }
  | some active =>
    if level.position > active.position then
      { state := st, ret := .undef, trace := [] }
    else
      let args1 := substitutePrintf ext args
      let fr := processArgs ext st.meta st.hooks.arg timestamp.raw args1
      let output := String.intercalate " " fr.1
      let output := if level.trace || st.meta.traceFlag
                    then output ++ "\n" ++ ext.stackText else output
      let output := if level.err then chalk.red.apply output else output
      let wr := CatLoggr.write ext st level output level.err
      { state := CatLoggr.meta wr.1, ret := .logger, trace := fr.2 ++ wr.2 }

/-- Invoking a level function by its bound name or alias
(`this[name](...args)`): looks the callable up among the bound method
shortcuts and runs `_format` on the level captured at registration. -/
def CatLoggr.call (ext : Externals) (st : LoggrState) (name : String)
    (args : List JSVal) : CallResult :=
  match jsGet name st.methods with
  | some l => CatLoggr.format ext st l args
  | none =>
    { state := st, ret := .thrown (.typeError (name ++ " is not a function")), trace := [] }

/-- The default level set (`CatLoggr.DefaultLevels`). -/
def CatLoggr.DefaultLevels : List LevelSpec :=
  [ { name := "fatal", color := chalk.redBgBlack, err := true },
    { name := "error", color := chalk.blackBgRed, err := true },
    { name := "warn", color := chalk.blackBgYellow, err := true },
    { name := "trace", color := chalk.greenBgBlack, trace := true },
    { name := "init", color := chalk.blackBgBlue },
    { name := "info", color := chalk.blackBgGreen },
    { name := "verbose", color := chalk.blackBgCyan },
    { name := "debug", color := chalk.magentaBgBlack, aliases := ["log", "dir"] } ]

/-- The construction configuration (streams are external handles and
are not part of the model). -/
structure LoggrConfig where
  shardId : Option JSPrim := none
  shardLength : Option Nat := none
  level : Option String := none
  levels : Option (List LevelSpec) := none
  meta : Option MetaOpts := none

/-- The instance fields before the constructor body runs. JS fields
start as `undefined`: the level name is the string an undefined key
stringifies to, and `defaultMeta` is a placeholder that the constructor
always overwrites before any read. -/
def initState : LoggrState :=
  { shard := none, shardLength := none, levelName := "undefined"
    levels := [], levelMap := [], methods := []
    defaultMeta := LogMeta.ofOpts {}, meta := .empty, maxLength := 0, hooks := {} }

/-- Source `this._levels[this._levels.length - 1].name`; the empty case cannot
be reached by the constructor (setLevels would already have thrown). -/
def lastLevelName (ls : List LogLevel) : String :=
  match ls.getLast? with
  | some l => l.name
  | none => "undefined"

/-- The `CatLoggr` constructor: stores the shard identity when the
shard id is truthy (copying `shardLength` as given, possibly undefined),
registers the supplied or default levels, sets the threshold to the
given level name or — `config.level` absent or empty — the last
(lowest-priority) level's name, and installs the default meta, an empty
pending meta and empty hook lists. -/
def CatLoggr.new (config? : Option LoggrConfig) : Except JSError LoggrState :=
  let config := config?.getD {}
  let st0 := initState
  let st0 :=
    match config.shardId with
    | some sh =>
      if sh.truthy then { st0 with shard := some sh, shardLength := config.shardLength }
      else st0
    | none => st0
  match CatLoggr.setLevels st0 (.array (config.levels.getD CatLoggr.DefaultLevels)) with
  | .error e => .error e.1
  | .ok st1 =>
    let levelArg :=
      match config.level with
      | some s => if s = "" then lastLevelName st1.levels else s
      | none => lastLevelName st1.levels
    match CatLoggr.setLevel st1 (.str levelArg) with
    | .error e => .error e.1
    | .ok st2 =>
      match CatLoggr.setDefaultMeta st2 (.obj (config.meta.getD {})) with
      | .error e => .error e.1
      | .ok st3 => .ok { st3 with meta := .empty, hooks := {} }

/-- A trivial instantiation of the external capabilities, used to
evaluate the model on concrete inputs. -/
def trivialExternals : Externals :=
  { now := { raw := 0, formattedRaw := "01/01 00:00:00" }
    utilFormat := fun s _ => s
    inspect := fun _ _ => "[inspected]"
    stackText := "at test" }

/-- Extracts the state from a setter result, whether it returned
normally or threw (JS keeps the mutated instance either way). -/
def stateOf (r : Except (JSError × LoggrState) LoggrState) : LoggrState :=
  match r with
  | .ok st => st
  | .error e => e.2

/-- The logger produced by `new CatLoggr()` (no configuration). -/
def defaultLoggr : LoggrState :=
  match CatLoggr.new none with
  | .ok st => st
  | .error _ => initState

/-- The state of `defaultLoggr` after `setLevel("warn")`. -/
def warnLoggr : LoggrState :=
  stateOf (CatLoggr.setLevel defaultLoggr (.str "warn"))

/-- The logger produced by `new CatLoggr({ shardId: 1 })` (no
`shardLength` supplied). -/
def shardLoggr : LoggrState :=
  match CatLoggr.new (some { shardId := some (.num 1) }) with
  | .ok st => st
  | .error _ => initState

/-- The registry state produced by `setLevels` alone on the default
level set (used to state registry-level facts). -/
def defaultRegistry : LoggrState :=
  stateOf (CatLoggr.setLevels initState (.array CatLoggr.DefaultLevels))

/-!  Helper lemmas about traces and the registry. -/

theorem writeEvents_append (a b : List Obs) :
    writeEvents (a ++ b) = writeEvents a ++ writeEvents b := by
  simp [writeEvents, List.filterMap_append]

theorem postHookEvents_append (a b : List Obs) :
    postHookEvents (a ++ b) = postHookEvents a ++ postHookEvents b := by
  simp [postHookEvents, List.filter_append]

theorem argHookEvents_append (a b : List Obs) :
    argHookEvents (a ++ b) = argHookEvents a ++ argHookEvents b := by
  simp [argHookEvents, List.filter_append]

theorem writeEvents_runArgHooks (hs : List ArgHook) (arg : JSVal) (d : Nat) :
    writeEvents (runArgHooks hs arg d).2 = [] := by
  induction hs with
  | nil => rfl
  | cons h rest ih =>
    simp only [runArgHooks]
    cases h arg d with
    | none => simpa [writeEvents] using ih
    | some r => rfl

theorem writeEvents_formatArg (ext : Externals) (pending : Pending)
    (hooks : List ArgHook) (arg : JSVal) (d : Nat) :
    writeEvents (formatArg ext pending hooks arg d).2 = [] :=
  writeEvents_runArgHooks hooks arg d

theorem writeEvents_processArgs (ext : Externals) (pending : Pending)
    (hooks : List ArgHook) (d : Nat) (args : List JSVal) :
    writeEvents (processArgs ext pending hooks d args).2 = [] := by
  induction args with
  | nil => rfl
  | cons a rest ih =>
    simp only [processArgs, writeEvents_append]
    rw [writeEvents_formatArg, ih]
    rfl

theorem writeEvents_runPostHooks (hs : List PostHook) (p : PostParams) :
    writeEvents (runPostHooks hs p).2 = [] := by
  induction hs with
  | nil => rfl
  | cons h rest ih =>
    simp only [runPostHooks]
    cases h p with
    | none => simpa [writeEvents] using ih
    | some r => rfl

theorem runArgHooks_prefix_none (arg : JSVal) (d : Nat) (hs1 rest : List ArgHook)
    (hnone : ∀ g ∈ hs1, g arg d = none) :
    runArgHooks (hs1 ++ rest) arg d =
      ((runArgHooks rest arg d).1,
        List.replicate hs1.length (Obs.argHook arg) ++ (runArgHooks rest arg d).2) := by
  induction hs1 with
  | nil => simp
  | cons g gs ih =>
    have hg : g arg d = none := hnone g (by simp)
    have ihr := ih (fun g2 hg2 => hnone g2 (by simp [hg2]))
    simp only [List.cons_append, runArgHooks, hg, List.append_eq, ihr, List.length_cons,
      List.replicate_succ]

theorem runArgHooks_all_none (arg : JSVal) (d : Nat) (hs : List ArgHook)
    (hnone : ∀ g ∈ hs, g arg d = none) :
    runArgHooks hs arg d = (none, List.replicate hs.length (Obs.argHook arg)) := by
  have := runArgHooks_prefix_none arg d hs [] hnone
  simpa [runArgHooks] using this

theorem runPostHooks_prefix_none (p : PostParams) (hs1 rest : List PostHook)
    (hnone : ∀ g ∈ hs1, g p = none) :
    runPostHooks (hs1 ++ rest) p =
      ((runPostHooks rest p).1,
        List.replicate hs1.length (Obs.postHook p.text) ++ (runPostHooks rest p).2) := by
  induction hs1 with
  | nil => simp
  | cons g gs ih =>
    have hg : g p = none := hnone g (by simp)
    have ihr := ih (fun g2 hg2 => hnone g2 (by simp [hg2]))
    simp only [List.cons_append, runPostHooks, hg, List.append_eq, ihr, List.length_cons,
      List.replicate_succ]

theorem postHookEvents_runPostHooks_first (p : PostParams) (hs1 hs2 : List PostHook)
    (h : PostHook) (s : String)
    (hnone : ∀ g ∈ hs1, g p = none) (hres : h p = some s) :
    runPostHooks (hs1 ++ h :: hs2) p =
      (some s, List.replicate (hs1.length + 1) (Obs.postHook p.text)) := by
  rw [runPostHooks_prefix_none p hs1 (h :: hs2) hnone]
  simp only [runPostHooks, hres]
  rw [List.replicate_succ']

theorem positionLevels_names (ls : List LevelSpec) (i : Nat) :
    (positionLevels ls i).map LogLevel.name = ls.map LevelSpec.name := by
  induction ls generalizing i with
  | nil => rfl
  | cons l rest ih => simp [positionLevels, registerLevel, ih]

theorem jsGet_foldl_jsSet (k : String) (ls : List LogLevel)
    (init : List (String × LogLevel)) :
    jsGet k (ls.foldl (fun m l => jsSet m l.name l) init) = none ↔
      (k ∉ ls.map LogLevel.name ∧ jsGet k init = none) := by
  induction ls generalizing init with
  | nil => simp
  | cons l rest ih =>
    rw [List.foldl_cons, ih]
    simp only [jsSet, jsGet, List.map_cons, List.mem_cons]
    by_cases h : l.name = k
    · simp [h, eq_comm]
    · have h2 : ¬k = l.name := fun hk => h hk.symm
      simp [h, h2]

theorem jsGet_buildLevelMap_none (k : String) (ls : List LogLevel) :
    jsGet k (buildLevelMap ls) = none ↔ k ∉ ls.map LogLevel.name := by
  simpa [buildLevelMap, jsGet] using jsGet_foldl_jsSet k ls []

theorem setLevels_ok_levelMap (st st' : LoggrState) (specs : List LevelSpec)
    (hok : CatLoggr.setLevels st (.array specs) = .ok st') :
    st'.levelMap = buildLevelMap (positionLevels specs 0) := by
  simp only [CatLoggr.setLevels] at hok
  by_cases h : (jsGet st.levelName (buildLevelMap (positionLevels specs 0))).isSome
  · simp only [h, if_true] at hok
    cases hok
    rfl
  · simp only [h, if_false] at hok
    cases hlast : (positionLevels specs 0).getLast? with
    | some l =>
      simp only [hlast] at hok
      cases hok
      rfl
    | none => simp [hlast] at hok

/-- Merging the empty options object changes nothing. -/
theorem LogMeta.assign_empty (d : LogMeta) : LogMeta.assign d {} = d := rfl

/-!
A reference-level rendering of the two `meta()` implementations, for the
aliasing question the functional model cannot express: meta objects live
in a heap, the stored default meta is a reference into it, and `meta()`
installs the pending reference.
-/

/-- A heap of meta objects with the stored references of one logger. -/
structure MetaStore where
  heap : List LogMeta
  defaultRef : Nat
  pendingRef : Option Nat

/-- The TypeScript `meta()`: allocates a fresh object, assigns the
defaults then the options into it, and points the pending reference at
the fresh object; the default object is untouched. -/
def metaTS (ms : MetaStore) (m : MetaOpts) : MetaStore :=
  { heap := ms.heap ++
      [LogMeta.assign ((ms.heap.get? ms.defaultRef).getD (LogMeta.ofOpts {})) m]
    defaultRef := ms.defaultRef
    pendingRef := some ms.heap.length }

/-- The JS-variant `meta()` (`let temp = this._defaultMeta;
Object.assign(temp, meta)`): assigns the options into the default object
itself, mutating it in place, and points the pending reference at it. -/
def metaJS (ms : MetaStore) (m : MetaOpts) : MetaStore :=
  { heap := ms.heap.set ms.defaultRef
      (LogMeta.assign ((ms.heap.get? ms.defaultRef).getD (LogMeta.ofOpts {})) m)
    defaultRef := ms.defaultRef
    pendingRef := some ms.defaultRef }

theorem get?_append_left (l1 l2 : List LogMeta) (n : Nat) (h : n < l1.length) :
    (l1 ++ l2).get? n = l1.get? n := by
  induction l1 generalizing n with
  | nil => exact absurd h (Nat.not_lt_zero n)
  | cons a t ih =>
    cases n with
    | zero => rfl
    | succ k => exact ih k (Nat.lt_of_succ_lt_succ h)

theorem writeEvents_write_length (ext : Externals) (st : LoggrState) (level : LogLevel)
    (text : String) (err : Bool) :
    (writeEvents (CatLoggr.write ext st level text err).2).length = 1 := by
  simp only [CatLoggr.write, writeEvents_append, writeEvents_runPostHooks, List.nil_append]
  rfl

/-- C1: for every registry and active threshold, a call to a level
function whose position is strictly greater than the active level's
position produces zero stream writes and invokes no arg-hook and no
post-hook; a call whose position is less than or equal to the active
position produces exactly one stream write. -/
theorem c1_threshold_filtering (ext : Externals) (st : LoggrState) (name : String)
    (l active : LogLevel) (args : List JSVal)
    (hm : jsGet name st.methods = some l)
    (ha : jsGet st.levelName st.levelMap = some active) :
    (l.position > active.position →
        writeEvents (CatLoggr.call ext st name args).trace = []
      ∧ argHookEvents (CatLoggr.call ext st name args).trace = []
      ∧ postHookEvents (CatLoggr.call ext st name args).trace = [])
    ∧ (l.position ≤ active.position →
        (writeEvents (CatLoggr.call ext st name args).trace).length = 1) := by
  constructor
  · intro hgt
    simp only [CatLoggr.call, hm, CatLoggr.format, ha, if_pos hgt]
    exact ⟨rfl, rfl, rfl⟩
  · intro hle
    have hnot : ¬l.position > active.position := Nat.not_lt.mpr hle
    simp only [CatLoggr.call, hm, CatLoggr.format, ha, if_neg hnot]
    rw [writeEvents_append, writeEvents_processArgs, List.nil_append,
      writeEvents_write_length]

/-- Witness for C1 at the default levels with threshold "warn": an
"info" call is fully suppressed, a "fatal" call writes exactly once. -/
theorem c1_threshold_filtering_witness :
    (writeEvents (CatLoggr.call trivialExternals warnLoggr "info" [JSVal.str "hi"]).trace = []
      ∧ argHookEvents (CatLoggr.call trivialExternals warnLoggr "info" [JSVal.str "hi"]).trace = []
      ∧ postHookEvents (CatLoggr.call trivialExternals warnLoggr "info" [JSVal.str "hi"]).trace = [])
    ∧ (writeEvents (CatLoggr.call trivialExternals warnLoggr "fatal" [JSVal.str "hi"]).trace).length = 1 := by
  refine ⟨(c1_threshold_filtering trivialExternals warnLoggr "info"
    { name := "info", color := chalk.blackBgGreen, err := false, trace := false,
      aliases := [], position := 5 }
    { name := "warn", color := chalk.blackBgYellow, err := true, trace := false,
      aliases := [], position := 2 }
    [JSVal.str "hi"] (by decide) (by decide)).1 (by decide),
    (c1_threshold_filtering trivialExternals warnLoggr "fatal"
    { name := "fatal", color := chalk.redBgBlack, err := true, trace := false,
      aliases := [], position := 0 }
    { name := "warn", color := chalk.blackBgYellow, err := true, trace := false,
      aliases := [], position := 2 }
    [JSVal.str "hi"] (by decide) (by decide)).2 (by decide)⟩

/-- C2 (code bug): a threshold-filtered call indeed produces no output,
no hook invocation and no state change — but it returns `undefined`
rather than the logger instance the claim (and the method's own
JSDoc, `@returns Self for chaining`) promises. Evaluated at the failing
input: default levels, threshold "warn", an "info" call. -/
theorem c2_filtered_returns_undefined :
    (CatLoggr.call trivialExternals warnLoggr "info" [JSVal.str "hi"]).ret = Ret.undef
    ∧ (CatLoggr.call trivialExternals warnLoggr "info" [JSVal.str "hi"]).state = warnLoggr
    ∧ (CatLoggr.call trivialExternals warnLoggr "info" [JSVal.str "hi"]).trace = [] :=
  ⟨rfl, rfl, rfl⟩

/-- C3 (code bug): constructing without a level option always sets the
threshold to the last (lowest-priority) level — "debug" for the default
set — even though a level named "info" is present, contradicting the
constructor JSDoc default of "info". The custom-set branch of the claim
does hold: with levels catnip/fish the threshold becomes "fish". -/
theorem c3_default_threshold_is_debug :
    defaultLoggr.levelName = "debug"
    ∧ "info" ∈ defaultLoggr.levels.map LogLevel.name
    ∧ (match CatLoggr.new (some { levels := some [
          { name := "catnip", color := chalk.redBgBlack },
          { name := "fish", color := chalk.blackBgRed } ] }) with
        | .ok st => st.levelName
        | .error _ => "") = "fish" :=
  ⟨rfl, by decide, rfl⟩

/-- C4 counterexample: "log" is an alias of the registered default
"debug" level, yet `setLevel("log")` raises UnknownLevel — the claim
that setLevel succeeds for every alias is false. -/
theorem c4_alias_counterexample :
    CatLoggr.setLevel defaultLoggr (.str "log") =
      .error (.error "the level log does not exist", defaultLoggr)
    ∧ "log" ∈ (match jsGet "debug" defaultLoggr.levelMap with
               | some l => l.aliases
               | none => []) :=
  ⟨rfl, by decide⟩

/-- C4 (amended): setLevel raises InvalidArgument exactly when its
argument is not a string and UnknownLevel exactly when the string is
not a registered level's primary name; the level map holds primary
names only, so aliases (that are not also primary names) raise
UnknownLevel rather than resolving. -/
theorem c4_setLevel_amended (st st' : LoggrState) (specs : List LevelSpec)
    (a b : String) (v : JSVal)
    (hok : CatLoggr.setLevels st (.array specs) = .ok st')
    (hnot : ∀ sp ∈ specs, sp.name ≠ a)
    (hyes : b ∈ specs.map LevelSpec.name)
    (hnostr : ∀ s, v ≠ .str s) :
    CatLoggr.setLevel st' (.str a) =
      .error (.error ("the level " ++ a ++ " does not exist"), st')
    ∧ CatLoggr.setLevel st' (.str b) = .ok { st' with levelName := b }
    ∧ CatLoggr.setLevel st' v = .error (.typeError "level must be a string", st') := by
  have hmap := setLevels_ok_levelMap st st' specs hok
  have hnone : jsGet a st'.levelMap = none := by
    rw [hmap, jsGet_buildLevelMap_none, positionLevels_names]
    intro hx
    rw [List.mem_map] at hx
    obtain ⟨sp, hsp, hname⟩ := hx
    exact hnot sp hsp hname
  have hsome : ∃ l, jsGet b st'.levelMap = some l := by
    rw [hmap]
    cases hj : jsGet b (buildLevelMap (positionLevels specs 0)) with
    | some l => exact ⟨l, rfl⟩
    | none =>
      rw [jsGet_buildLevelMap_none, positionLevels_names] at hj
      exact absurd hyes hj
  refine ⟨?_, ?_, ?_⟩
  · simp only [CatLoggr.setLevel, hnone]
  · obtain ⟨lb, hlb⟩ := hsome
    simp only [CatLoggr.setLevel, hlb]
  · cases v with
    | str s => exact absurd rfl (hnostr s)
    | num n => rfl
    | bool b => rfl
    | undef => rfl
    | nullv => rfl
    | errObj s => rfl
    | obj i => rfl

/-- Witness for C4 (amended) on the default registry: the alias "log"
raises UnknownLevel, the primary name "info" succeeds, and the number
42 raises InvalidArgument. -/
theorem c4_setLevel_amended_witness :
    CatLoggr.setLevel defaultRegistry (.str "log") =
      .error (.error "the level log does not exist", defaultRegistry)
    ∧ CatLoggr.setLevel defaultRegistry (.str "info") =
      .ok { defaultRegistry with levelName := "info" }
    ∧ CatLoggr.setLevel defaultRegistry (.num 42) =
      .error (.typeError "level must be a string", defaultRegistry) :=
  c4_setLevel_amended initState defaultRegistry CatLoggr.DefaultLevels "log" "info"
    (.num 42) (by rfl) (by decide) (by decide) (fun s h => JSVal.noConfusion h)

/-- C5: a per-call `meta()` override never mutates the stored default
meta (the TypeScript implementation merges into a fresh object: in the
reference model the default heap cell is unchanged; in the functional
model `defaultMeta` is preserved by `meta()` and by a completed call),
and after each completed write the pending meta holds exactly the
values derived from the defaults. -/
theorem c5_meta_value_semantics (ext : Externals) (st : LoggrState) (name : String)
    (l active : LogLevel) (args : List JSVal) (m : MetaOpts) (ms : MetaStore)
    (hm : jsGet name st.methods = some l)
    (ha : jsGet st.levelName st.levelMap = some active)
    (hpass : l.position ≤ active.position)
    (href : ms.defaultRef < ms.heap.length) :
    (CatLoggr.meta st m).defaultMeta = st.defaultMeta
    ∧ (CatLoggr.call ext st name args).state.defaultMeta = st.defaultMeta
    ∧ (CatLoggr.call ext st name args).state.meta = Pending.merged st.defaultMeta
    ∧ (metaTS ms m).heap.get? ms.defaultRef = ms.heap.get? ms.defaultRef := by
  have hnot : ¬l.position > active.position := Nat.not_lt.mpr hpass
  refine ⟨rfl, ?_, ?_, ?_⟩
  · simp only [CatLoggr.call, hm, CatLoggr.format, ha, if_neg hnot]
    rfl
  · simp only [CatLoggr.call, hm, CatLoggr.format, ha, if_neg hnot]
    rfl
  · simp only [metaTS]
    exact get?_append_left ms.heap _ ms.defaultRef href

/-- Witness for C5: an "info" call on the default logger (threshold
"debug", so the call completes) with a quote-requesting one-shot meta;
the stored defaults survive and the pending meta is reset to them. -/
theorem c5_meta_value_semantics_witness :
    (CatLoggr.meta defaultLoggr { quote := some true }).defaultMeta = defaultLoggr.defaultMeta
    ∧ (CatLoggr.call trivialExternals defaultLoggr "info" [JSVal.str "hi"]).state.defaultMeta
        = defaultLoggr.defaultMeta
    ∧ (CatLoggr.call trivialExternals defaultLoggr "info" [JSVal.str "hi"]).state.meta
        = Pending.merged defaultLoggr.defaultMeta
    ∧ (metaTS { heap := [LogMeta.ofOpts {}], defaultRef := 0, pendingRef := none }
          { quote := some true }).heap.get? 0
        = ({ heap := [LogMeta.ofOpts {}], defaultRef := 0, pendingRef := none } : MetaStore).heap.get? 0 :=
  c5_meta_value_semantics trivialExternals defaultLoggr "info"
    { name := "info", color := chalk.blackBgGreen, err := false, trace := false,
      aliases := [], position := 5 }
    { name := "debug", color := chalk.magentaBgBlack, err := false, trace := false,
      aliases := ["log", "dir"], position := 7 }
    [JSVal.str "hi"] { quote := some true }
    { heap := [LogMeta.ofOpts {}], defaultRef := 0, pendingRef := none }
    (by decide) (by decide) (by decide) (by decide)

/-- C6: arg-hooks are tried in registration order; the first hook with
a result short-circuits the rest for that argument (only the hooks up
to and including it are invoked), a returned array is splatted
element-by-element, a scalar becomes one fragment that is not
re-processed by the built-in type rules, and if every hook declines the
argument falls through to the built-in classification. -/
theorem c6_arg_hook_chain (ext : Externals) (pending : Pending)
    (hs1 hs2 hsAll : List ArgHook) (harr hsc : ArgHook) (arg : JSVal) (d : Nat)
    (xs : List String) (s : String)
    (hnone : ∀ g ∈ hs1, g arg d = none)
    (h1 : harr arg d = some (.arr xs))
    (h2 : hsc arg d = some (.scalar s))
    (hall : ∀ g ∈ hsAll, g arg d = none) :
    formatArg ext pending (hs1 ++ harr :: hs2) arg d =
      (xs, List.replicate (hs1.length + 1) (Obs.argHook arg))
    ∧ formatArg ext pending (hs1 ++ hsc :: hs2) arg d =
      ([s], List.replicate (hs1.length + 1) (Obs.argHook arg))
    ∧ formatArg ext pending hsAll arg d =
      (classifyArg ext pending arg, List.replicate hsAll.length (Obs.argHook arg)) := by
  have hpre1 := runArgHooks_prefix_none arg d hs1 (harr :: hs2) hnone
  have hpre2 := runArgHooks_prefix_none arg d hs1 (hsc :: hs2) hnone
  have hAll := runArgHooks_all_none arg d hsAll hall
  refine ⟨?_, ?_, ?_⟩
  · simp only [formatArg, hpre1, runArgHooks, h1]
    rw [List.replicate_succ']
  · simp only [formatArg, hpre2, runArgHooks, h2]
    rw [List.replicate_succ']
  · simp only [formatArg, hAll]

/-- Witness for C6: one declining hook before the deciding hook, with
an array-returning, a scalar-returning and an all-declining chain. -/
theorem c6_arg_hook_chain_witness :
    formatArg trivialExternals Pending.empty
        [fun _ _ => none, fun _ _ => some (.arr ["a", "b"]), fun _ _ => some (.scalar "zz")]
        (JSVal.num 7) 0 =
      (["a", "b"], List.replicate 2 (Obs.argHook (JSVal.num 7)))
    ∧ formatArg trivialExternals Pending.empty
        [fun _ _ => none, fun _ _ => some (.scalar "one"), fun _ _ => some (.scalar "zz")]
        (JSVal.num 7) 0 =
      (["one"], List.replicate 2 (Obs.argHook (JSVal.num 7)))
    ∧ formatArg trivialExternals Pending.empty [fun _ _ => none] (JSVal.num 7) 0 =
      (classifyArg trivialExternals Pending.empty (JSVal.num 7),
        List.replicate 1 (Obs.argHook (JSVal.num 7))) := by
  have h := c6_arg_hook_chain trivialExternals Pending.empty
    [fun _ _ => none] [fun _ _ => some (.scalar "zz")] [fun _ _ => none]
    (fun _ _ => some (.arr ["a", "b"])) (fun _ _ => some (.scalar "one"))
    (JSVal.num 7) 0 ["a", "b"] "one"
    (by intro g hg; rw [List.mem_singleton] at hg; subst hg; rfl)
    rfl rfl
    (by intro g hg; rw [List.mem_singleton] at hg; subst hg; rfl)
  exact h

theorem writeEvents_replicate_postHook (n : Nat) (t : String) :
    writeEvents (List.replicate n (Obs.postHook t)) = [] := by
  induction n with
  | zero => rfl
  | succ k ih => simp [writeEvents, List.replicate_succ, ih]

theorem postHookEvents_replicate (n : Nat) (t : String) :
    postHookEvents (List.replicate n (Obs.postHook t)) =
      List.replicate n (Obs.postHook t) := by
  induction n with
  | zero => rfl
  | succ k ih => simp [postHookEvents, List.replicate_succ, ih]

/-- C7: post-hooks run in registration order on the fully assembled
text; the first non-null result replaces the written body wholesale and
stops the chain — the hooks after it are not invoked. -/
theorem c7_post_hook_replacement (ext : Externals) (st : LoggrState)
    (level : LogLevel) (text : String) (err : Bool)
    (hs1 hs2 : List PostHook) (h : PostHook) (s : String)
    (hhooks : st.hooks.post = hs1 ++ h :: hs2)
    (hnone : ∀ g ∈ hs1,
      g (CatLoggr.postParams st level text (CatLoggr.timestampOf ext)) = none)
    (hres : h (CatLoggr.postParams st level text (CatLoggr.timestampOf ext)) = some s) :
    (writeEvents (CatLoggr.write ext st level text err).2).map WriteEvent.body = [s]
    ∧ postHookEvents (CatLoggr.write ext st level text err).2 =
      List.replicate (hs1.length + 1) (Obs.postHook text) := by
  have hrun := postHookEvents_runPostHooks_first
    (CatLoggr.postParams st level text (CatLoggr.timestampOf ext)) hs1 hs2 h s hnone hres
  constructor
  · simp only [CatLoggr.write, hhooks, hrun, writeEvents_append,
      writeEvents_replicate_postHook, List.nil_append]
    rfl
  · have hpp : (CatLoggr.postParams st level text (CatLoggr.timestampOf ext)).text
        = text := rfl
    rw [hpp] at hrun
    simp only [CatLoggr.write, hhooks, hrun, postHookEvents_append,
      postHookEvents_replicate]
    simp [postHookEvents]

/-- A sample level used to exercise the Writer in witnesses. -/
def sampleLevel : LogLevel :=
  { name := "fatal", color := chalk.redBgBlack, err := true, trace := false,
    aliases := [], position := 0 }

/-- The default logger with three post-hooks: one that declines, one
that replaces, one that would replace later but must not run. -/
def postHookLoggr : LoggrState :=
  CatLoggr.addPostHook
    (CatLoggr.addPostHook
      (CatLoggr.addPostHook defaultLoggr (fun _ => none))
      (fun _ => some "REPLACED"))
    (fun _ => some "LATER")

/-- Witness for C7: with hooks [decline, replace, later], the written
body is exactly the replacement and only the first two hooks run. -/
theorem c7_post_hook_replacement_witness :
    (writeEvents (CatLoggr.write trivialExternals postHookLoggr sampleLevel
        "original" true).2).map WriteEvent.body = ["REPLACED"]
    ∧ postHookEvents (CatLoggr.write trivialExternals postHookLoggr sampleLevel
        "original" true).2 = List.replicate 2 (Obs.postHook "original") :=
  c7_post_hook_replacement trivialExternals postHookLoggr sampleLevel "original" true
    [fun _ => none] [fun _ => some "LATER"] (fun _ => some "REPLACED") "REPLACED"
    rfl
    (by intro g hg; rw [List.mem_singleton] at hg; subst hg; rfl)
    rfl

/-- C8: `setLevels` on any non-array input raises InvalidArgument
(TypeError) and the state carried out of the throw is the previous one
unchanged — level sequence, name map, threshold and max label width all
intact. -/
theorem c8_setLevels_non_array (st : LoggrState) (v : JSVal) :
    CatLoggr.setLevels st (.nonArray v) =
      .error (.typeError "levels must be an array.", st)
    ∧ ∀ e st2, CatLoggr.setLevels st (.nonArray v) = .error (e, st2) →
        st2.levels = st.levels ∧ st2.levelMap = st.levelMap
        ∧ st2.levelName = st.levelName ∧ st2.maxLength = st.maxLength := by
  refine ⟨rfl, ?_⟩
  intro e st2 h
  cases h
  exact ⟨rfl, rfl, rfl, rfl⟩

/-- C9 (code bug): constructed with a shard id but no shard length,
`_shardLength` stays undefined, the padding guard
`text.length < undefined` is false, and the shard tag is rendered
unpadded (display width 1 for shard id 1) instead of centre-padded to
width 4 (which would be " 1  "). Evaluated at the failing input
`new CatLoggr(\x7b shardId: 1 \x7d)` followed by an "info" call. -/
theorem c9_shard_tag_unpadded :
    shardLoggr.shardLength = none
    ∧ (writeEvents (CatLoggr.call trivialExternals shardLoggr "info"
        [JSVal.str "x"]).trace).map WriteEvent.shardText =
      [chalk.blackBoldBgYellow.apply "1"]
    ∧ CatLoggr.centrePad "1" (some 4) = " 1  "
    ∧ ("1" : String).length = 1 :=
  ⟨rfl, rfl, rfl, rfl⟩

/-- C10: `setLevels` with an empty array throws (reading `.name` of
`undefined` while recomputing the threshold fallback) after the
name-to-level map and the level sequence have already been replaced:
the error state has an empty registry, unlike the non-array case the
previous registry is not preserved. -/
theorem c10_empty_levels_partial_mutation (st : LoggrState) :
    CatLoggr.setLevels st (.array []) =
      .error (.typeError "Cannot read properties of undefined (reading name)",
        { st with levels := [], levelMap := [] }) := rfl
